import Mathlib

/-!
Verification of the core of `galman.py`, a media-collection triage tool.

Shallow embedding conventions:
* Python byte strings (file contents) are `List Nat` (one entry per byte).
* Python text strings (paths, keys, file contents of the decision lists)
  are `List Char`.
* Python `set` values are `Finset (List Char)`; where the original code
  iterates over a set in an unspecified order, the embedding is
  parametrised by an enumeration list of that set.
* The filesystem regions the program touches (source tree, airlock,
  gallery) are lists of named files.

All definitions are translated from `src/galman.py`; line numbers in the
doc comments refer to that file.
-/

/-- Bytes of a file, one `Nat` (0..255) per byte. -/
abbrev Bytes := List Nat

/-- 32-bit truncation, used throughout the SHA-256 model. -/
def w32 (n : Nat) : Nat := n % 4294967296

/-- Right rotation of a 32-bit word (input assumed `< 2^32`). -/
def rotr32 (s x : Nat) : Nat := w32 ((x >>> s) ||| (x <<< (32 - s)))

/-- SHA-256 big sigma 0. -/
def bsig0 (x : Nat) : Nat := rotr32 2 x ^^^ rotr32 13 x ^^^ rotr32 22 x

/-- SHA-256 big sigma 1. -/
def bsig1 (x : Nat) : Nat := rotr32 6 x ^^^ rotr32 11 x ^^^ rotr32 25 x

/-- SHA-256 small sigma 0. -/
def ssig0 (x : Nat) : Nat := rotr32 7 x ^^^ rotr32 18 x ^^^ (x >>> 3)

/-- SHA-256 small sigma 1. -/
def ssig1 (x : Nat) : Nat := rotr32 17 x ^^^ rotr32 19 x ^^^ (x >>> 10)

/-- SHA-256 choice function (`not x` is xor with the all-ones word). -/
def chFn (x y z : Nat) : Nat := (x &&& y) ^^^ ((x ^^^ 4294967295) &&& z)

/-- SHA-256 majority function. -/
def majFn (x y z : Nat) : Nat := (x &&& y) ^^^ (x &&& z) ^^^ (y &&& z)

/-- The 64 SHA-256 round constants (FIPS 180-4, written in decimal). -/
def shaK : List Nat :=
  [1116352408, 1899447441, 3049323471, 3921009573,
   961987163, 1508970993, 2453635748, 2870763221,
   3624381080, 310598401, 607225278, 1426881987,
   1925078388, 2162078206, 2614888103, 3248222580,
   3835390401, 4022224774, 264347078, 604807628,
   770255983, 1249150122, 1555081692, 1996064986,
   2554220882, 2821834349, 2952996808, 3210313671,
   3336571891, 3584528711, 113926993, 338241895,
   666307205, 773529912, 1294757372, 1396182291,
   1695183700, 1986661051, 2177026350, 2456956037,
   2730485921, 2820302411, 3259730800, 3345764771,
   3516065817, 3600352804, 4094571909, 275423344,
   430227734, 506948616, 659060556, 883997877,
   958139571, 1322822218, 1537002063, 1747873779,
   1955562222, 2024104815, 2227730452, 2361852424,
   2428436474, 2756734187, 3204031479, 3329325298]

/-- SHA-256 chaining state: eight 32-bit working variables. -/
structure Hash8 where
  a : Nat
  b : Nat
  c : Nat
  d : Nat
  e : Nat
  f : Nat
  g : Nat
  h : Nat
deriving DecidableEq, Repr

/-- The SHA-256 initial hash value (FIPS 180-4, written in decimal). -/
def shaH0 : Hash8 :=
  ⟨1779033703, 3144134277, 1013904242, 2773480762,
   1359893119, 2600822924, 528734635, 1541459225⟩

/-- `k` big-endian bytes of `n`. -/
def beBytes : Nat → Nat → List Nat
  | 0, _ => []
  | k + 1, n => beBytes k (n / 256) ++ [n % 256]

/-- SHA-256 padding: append `0x80`, zeros to 56 mod 64, then the 8-byte
big-endian bit length. -/
def sha256pad (msg : Bytes) : Bytes :=
  let len := msg.length
  let zeros := (119 - len % 64) % 64
  msg ++ 128 :: List.replicate zeros 0 ++ beBytes 8 (len * 8)

/-- Group bytes into big-endian 32-bit words. -/
def beWords : List Nat → List Nat
  | b0 :: b1 :: b2 :: b3 :: rest =>
      (((b0 * 256 + b1) * 256 + b2) * 256 + b3) :: beWords rest
  | _ => []

/-- Split a word list into 16-word blocks (`fuel` bounds the recursion;
callers pass the list length). -/
def chunks16 : Nat → List Nat → List (List Nat)
  | _, [] => []
  | 0, _ => []
  | fuel + 1, ws => ws.take 16 :: chunks16 fuel (ws.drop 16)

/-- Extend a 16-word block by `k` further message-schedule words. -/
def extendW : List Nat → Nat → List Nat
  | ws, 0 => ws
  | ws, k + 1 =>
      let n := ws.length
      let w := w32 (ssig1 (ws.getD (n - 2) 0) + ws.getD (n - 7) 0 +
                    ssig0 (ws.getD (n - 15) 0) + ws.getD (n - 16) 0)
      extendW (ws ++ [w]) k

/-- One SHA-256 round with constant `ki` and schedule word `wi`. -/
def shaRound (st : Hash8) (ki wi : Nat) : Hash8 :=
  let t1 := w32 (st.h + bsig1 st.e + chFn st.e st.f st.g + ki + wi)
  let t2 := w32 (bsig0 st.a + majFn st.a st.b st.c)
  ⟨w32 (t1 + t2), st.a, st.b, st.c, w32 (st.d + t1), st.e, st.f, st.g⟩

/-- SHA-256 compression of one 16-word block into the chaining state. -/
def shaCompress (st : Hash8) (block : List Nat) : Hash8 :=
  let ws := extendW block 48
  let fin := (shaK.zip ws).foldl (fun s kw => shaRound s kw.1 kw.2) st
  ⟨w32 (st.a + fin.a), w32 (st.b + fin.b), w32 (st.c + fin.c),
   w32 (st.d + fin.d), w32 (st.e + fin.e), w32 (st.f + fin.f),
   w32 (st.g + fin.g), w32 (st.h + fin.h)⟩

/-- SHA-256 digest of a byte string as a 256-bit natural number.  This
models Python's `hashlib.sha256(data).hexdigest()` followed by
`int(hexdigest, 16)` (`galman.py` lines 166-171). -/
def sha256 (msg : Bytes) : Nat :=
  let ws := beWords (sha256pad msg)
  let d := (chunks16 ws.length ws).foldl shaCompress shaH0
  (((((((d.a * 4294967296 + d.b) * 4294967296 + d.c) * 4294967296 + d.d) *
        4294967296 + d.e) * 4294967296 + d.f) * 4294967296 + d.g) *
     4294967296 + d.h)

/-- `HASH_LENGTH` (`galman.py` line 22). -/
def HASH_LENGTH : Nat := 32

/-- `SIZE_LENGTH` (`galman.py` line 23). -/
def SIZE_LENGTH : Nat := 8

/-- One lowercase hexadecimal digit character (Python `%x` digits). -/
def hexDigitChar (n : Nat) : Char :=
  if n < 10 then Char.ofNat (48 + n) else Char.ofNat (87 + n)

/-- Hex digits of `n`, most significant first, `[]` for `0`.  `fuel`
bounds the recursion; callers pass `n + 1`, which always suffices. -/
def natHexCore : Nat → Nat → List Char
  | 0, _ => []
  | fuel + 1, n =>
      if n = 0 then [] else natHexCore fuel (n / 16) ++ [hexDigitChar (n % 16)]

/-- The lowercase hex rendering of `n` produced by Python's `format(n, 'x')`
(at least one digit, no padding). -/
def natHexDigits (n : Nat) : List Char :=
  if n = 0 then ['0'] else natHexCore (n + 1) n

/-- `hex_encode(data, length)` (`galman.py` lines 151-157): Python
`'{0:0<length>x}'.format(data)` — lowercase hex, zero-padded on the left to
at least `length` characters (never truncated). -/
def hex_encode (data length : Nat) : List Char :=
  let s := natHexDigits data
  List.replicate (length - s.length) '0' ++ s

/-- `get_file_hash(fname, hash_length)` (`galman.py` lines 160-172), as a
function of the file's bytes: the SHA-256 digest reduced modulo
`2 ^ (4 * hash_length)` and hex-encoded to `hash_length` characters. -/
def get_file_hash (content : Bytes) (hash_length : Nat) : List Char :=
  hex_encode (sha256 content % 2 ^ (4 * hash_length)) hash_length

/-- `get_file_size(fname, size_length)` (`galman.py` lines 175-182), as a
function of the file's bytes: the byte count, hex-encoded. -/
def get_file_size (content : Bytes) (size_length : Nat) : List Char :=
  hex_encode content.length size_length

/-- `get_file_key(fname)` (`galman.py` lines 185-192): hash hex followed by
size hex.  The Python function reads the file at `fname`; here it is a
function of the bytes read. -/
def get_file_key (content : Bytes)
    (hash_length : Nat := HASH_LENGTH) (size_length : Nat := SIZE_LENGTH) :
    List Char :=
  get_file_hash content hash_length ++ get_file_size content size_length

/-- `get_file_extension(fname)` (`galman.py` lines 145-148) on a basename,
modelling `os.path.splitext`: the extension starts at the last dot, except
that a basename consisting only of leading dots before that position has no
extension. -/
def lastDotIdx (name : List Char) : Option Nat :=
  (List.range name.length).foldl
    (fun acc i => if name.getD i ' ' = '.' then some i else acc) none

/-- See `lastDotIdx`; returns the extension including its dot, `[]` if none. -/
def get_file_extension (name : List Char) : List Char :=
  match lastDotIdx name with
  | none => []
  | some i => if (name.take i).all (· == '.') then [] else name.drop i

/-- `IGNORED_EXT` (`galman.py` lines 25-29): `.tags`, `.swf`, `.json`. -/
def IGNORED_EXT : List (List Char) :=
  [['.', 't', 'a', 'g', 's'], ['.', 's', 'w', 'f'], ['.', 'j', 's', 'o', 'n']]

/-- Split a character list at every newline, Python `str.split('\n')`:
the result always has one more piece than there are newlines, and the
empty input yields `[[]]`. -/
def splitNl : List Char → List (List Char)
  | [] => [[]]
  | c :: cs =>
      if c = '\n' then [] :: splitNl cs
      else
        match splitNl cs with
        | [] => [[c]]
        | r :: rs => (c :: r) :: rs

/-- `read_file_keys(fname)` (`galman.py` lines 195-201) as a function of the
file's text: `set(content.split('\n'))`. -/
def read_file_keys (content : List Char) : Finset (List Char) :=
  (splitNl content).toFinset

/-- `write_file_keys(fname, fkeys)` (`galman.py` lines 204-210) as the text
written to the file: each key followed by a newline, in the order `fkeys`
in which Python happens to iterate over the set. -/
def write_file_keys (fkeys : List (List Char)) : List Char :=
  fkeys.foldl (fun acc k => acc ++ k ++ ['\n']) []

/-- In-memory state of a `Collection` (`galman.py` lines 41-119): the two
decision sets.  The directory paths only serve to locate the files and
directories on disk; the filesystem regions are modelled separately. -/
structure Collection where
  blacklist : Finset (List Char)
  whitelist : Finset (List Char)
deriving DecidableEq

/-- `Collection.is_blacklisted` (`galman.py` lines 85-89). -/
def Collection.is_blacklisted (col : Collection) (fkey : List Char) : Bool :=
  decide (fkey ∈ col.blacklist)

/-- `Collection.is_whitelisted` (`galman.py` lines 91-95). -/
def Collection.is_whitelisted (col : Collection) (fkey : List Char) : Bool :=
  decide (fkey ∈ col.whitelist)

/-- `Collection.blacklist_file` (`galman.py` lines 97-101):
`self.blacklist.update([fkey])`. -/
def Collection.blacklist_file (col : Collection) (fkey : List Char) : Collection :=
  { col with blacklist := insert fkey col.blacklist }

/-- `Collection.whitelist_file` (`galman.py` lines 103-107):
`self.whitelist.update([fkey])`. -/
def Collection.whitelist_file (col : Collection) (fkey : List Char) : Collection :=
  { col with whitelist := insert fkey col.whitelist }

/-- `Collection.__init__` (`galman.py` lines 51-74) after the bootstrap of
directories and files: load both decision sets from the two files' texts.
A freshly bootstrapped collection has two empty files, i.e. both texts
are `[]`. -/
def openCollection (blContent wlContent : List Char) : Collection :=
  ⟨read_file_keys blContent, read_file_keys wlContent⟩

/-- How the scope of `with Collection(...)` was exited: normal completion,
the user-initiated quit, or an exception (`galman.py` lines 374-388). -/
inductive ExitPath
  | completed
  | userQuit
  | raised (msg : List Char)
deriving DecidableEq

/-- `Collection.__exit__` (`galman.py` lines 79-83): write the blacklist
file then the whitelist file.  `lb` and `lw` are the orders in which Python
iterates over the two in-memory sets; the exception information passed by
the `with` statement (here `ExitPath`) is ignored by the handler's body, so
the same two file texts are produced on every exit path. -/
def exitCollection (path : ExitPath) (lb lw : List (List Char)) :
    List Char × List Char :=
  (write_file_keys lb, write_file_keys lw)

/-- A named file: `base` is its basename, `content` its bytes. -/
structure SFile where
  base : List Char
  content : Bytes
deriving DecidableEq, Repr

/-- Per-file outcome of the import loop (`galman.py` lines 218-235):
`copied` prints `+ Copied:`, `ignored` prints `- Ignored:`, and
`skippedSilent` is the branch where the target path already exists — that
branch prints nothing. -/
inductive ImportAction
  | copied
  | ignored
  | skippedSilent
deriving DecidableEq, Repr

/-- Result of one iteration of the import loop.  `hashed` records whether
`get_file_key` was evaluated on the source file (line 222 runs before any
of the checks, so it is `true` in every branch). -/
structure StepResult where
  airlock : List SFile
  action : ImportAction
  hashed : Bool
deriving DecidableEq, Repr

/-- `os.path.exists(target)` within the airlock: some staged file already
has the target basename. -/
def targetExists (al : List SFile) (target : List Char) : Bool :=
  al.any (fun g => g.base == target)

/-- The body of the import loop for a single source file (`galman.py`
lines 219-235).  Note that the key (line 222) is computed before the
extension check (line 224). -/
def import_one (col : Collection) (al : List SFile) (f : SFile) : StepResult :=
  let ext := get_file_extension f.base
  let fkey := get_file_key f.content
  if ext ∈ IGNORED_EXT then ⟨al, .ignored, true⟩
  else if !col.is_blacklisted fkey && !col.is_whitelisted fkey then
    let target := fkey ++ ext
    if targetExists al target then ⟨al, .skippedSilent, true⟩
    else ⟨al ++ [⟨target, f.content⟩], .copied, true⟩
  else ⟨al, .ignored, true⟩

/-- `import_files(col, src)` (`galman.py` lines 213-235) over the walked
source files `fs` (deepest-first, sorted within each directory — the order
is irrelevant to every property below): threads the airlock through
`import_one` and collects the per-file outcomes. -/
def import_files (col : Collection) (al : List SFile) (fs : List SFile) :
    List SFile × List ImportAction :=
  match fs with
  | [] => (al, [])
  | f :: rest =>
      let r := import_one col al f
      let res := import_files col r.airlock rest
      (res.1, r.action :: res.2)

/-- The two filesystem regions the importer touches: the source tree it
reads and the airlock it writes (`shutil.copy(fname, target)` on line 232
reads `fname` from the source tree and creates `target` in the airlock;
no statement of `import_files` writes to the source tree). -/
structure World where
  source : List SFile
  airlock : List SFile
deriving DecidableEq, Repr

/-- `import_files` at the filesystem level: the source region is read,
the airlock region is replaced by the threaded result. -/
def import_files_w (col : Collection) (w : World) : World × List ImportAction :=
  let res := import_files col w.airlock w.source
  (⟨w.source, res.1⟩, res.2)

/-- State visible to the review handlers (`galman.py` lines 238-278): the
collection's decision sets, the airlock contents and the gallery
contents. -/
structure ReviewState where
  col : Collection
  airlock : List SFile
  gallery : List SFile
deriving DecidableEq

/-- `os.remove(fname)`: drop the file with the given basename. -/
def removeFile (al : List SFile) (nm : List Char) : List SFile :=
  al.filter (fun g => g.base != nm)

/-- `blacklist_handler` (`galman.py` lines 238-256) acting on the currently
displayed staged file `f`: recompute the key from the file, add it to the
blacklist, and `os.remove` the staged file. -/
def blacklist_handler (st : ReviewState) (f : SFile) : ReviewState :=
  { st with
    col := st.col.blacklist_file (get_file_key f.content),
    airlock := removeFile st.airlock f.base }

/-- `whitelist_handler` (`galman.py` lines 259-278) acting on the currently
displayed staged file `f`: recompute the key, add it to the whitelist, and
`shutil.move` the staged file to the gallery under
`os.path.basename(fname)`, i.e. under its own basename. -/
def whitelist_handler (st : ReviewState) (f : SFile) : ReviewState :=
  { col := st.col.whitelist_file (get_file_key f.content),
    airlock := removeFile st.airlock f.base,
    gallery := st.gallery ++ [⟨f.base, f.content⟩] }

/-- The sixteen characters Python's `%x` format can produce. -/
def hexCharsList : List Char :=
  (List.range 16).map hexDigitChar

/-- A source file takes the import loop's copy-checking branch: its
extension is not ignored and its key is in neither decision set. -/
def goodFile (col : Collection) (f : SFile) : Prop :=
  get_file_extension f.base ∉ IGNORED_EXT ∧
  col.is_blacklisted (get_file_key f.content) = false ∧
  col.is_whitelisted (get_file_key f.content) = false

/-- The staged name an imported file gets: `fkey + ext`
(`galman.py` line 229). -/
def targetName (f : SFile) : List Char :=
  get_file_key f.content ++ get_file_extension f.base

/-- The outcome the import loop produces for a file when its target is
already staged: `ignored` for ignored extensions and known keys, and the
silent skip (line 231's `if` without an `else`) otherwise. -/
def secondRunReport (col : Collection) (f : SFile) : ImportAction :=
  if get_file_extension f.base ∈ IGNORED_EXT then .ignored
  else if col.is_blacklisted (get_file_key f.content) ||
          col.is_whitelisted (get_file_key f.content) then .ignored
  else .skippedSilent

/-- Every digit Python's `%x` renders for a value below 16 is one of the
sixteen lowercase hex characters. -/
theorem hexDigitChar_mem (d : Nat) (hd : d < 16) :
    hexDigitChar d ∈ hexCharsList := by
  interval_cases d <;> decide

/-- All characters produced by `natHexCore` are lowercase hex digits. -/
theorem natHexCore_mem :
    ∀ (fuel n : Nat), n < fuel → ∀ c ∈ natHexCore fuel n, c ∈ hexCharsList := by
  intro fuel
  induction fuel with
  | zero => intro n h; omega
  | succ f ih =>
    intro n hn c hc
    simp only [natHexCore] at hc
    by_cases h0 : n = 0
    · simp [h0] at hc
    · rw [if_neg h0] at hc
      rcases List.mem_append.1 hc with h | h
      · have hdiv : n / 16 < n := Nat.div_lt_self (Nat.pos_of_ne_zero h0) (by norm_num)
        exact ih (n / 16) (by omega) c h
      · have : c = hexDigitChar (n % 16) := by simpa using h
        subst this
        exact hexDigitChar_mem _ (Nat.mod_lt _ (by norm_num))

/-- `natHexCore` of a value below `16 ^ k` has at most `k` digits. -/
theorem natHexCore_length :
    ∀ (fuel n k : Nat), n < fuel → n < 16 ^ k → (natHexCore fuel n).length ≤ k := by
  intro fuel
  induction fuel with
  | zero => intro n k h; omega
  | succ f ih =>
    intro n k hn hk
    simp only [natHexCore]
    by_cases h0 : n = 0
    · simp [h0]
    · rw [if_neg h0]
      cases k with
      | zero => simp at hk; omega
      | succ m =>
        have hdivf : n / 16 < n := Nat.div_lt_self (Nat.pos_of_ne_zero h0) (by norm_num)
        have hdiv : n / 16 < 16 ^ m := by
          apply Nat.div_lt_of_lt_mul
          calc n < 16 ^ (m + 1) := hk
            _ = 16 * 16 ^ m := by ring
        have := ih (n / 16) m (by omega) hdiv
        simp only [List.length_append, List.length_cons, List.length_nil]
        omega

/-- All characters of `natHexDigits` are lowercase hex digits. -/
theorem natHexDigits_mem (n : Nat) : ∀ c ∈ natHexDigits n, c ∈ hexCharsList := by
  intro c hc
  unfold natHexDigits at hc
  by_cases h0 : n = 0
  · simp [h0] at hc; subst hc; decide
  · rw [if_neg h0] at hc
    exact natHexCore_mem (n + 1) n (Nat.lt_succ_self n) c hc

/-- `natHexDigits` of a value below `16 ^ k` (with `k ≥ 1`) has at most
`k` digits. -/
theorem natHexDigits_length (n k : Nat) (h : n < 16 ^ k) (hk : 1 ≤ k) :
    (natHexDigits n).length ≤ k := by
  unfold natHexDigits
  by_cases h0 : n = 0
  · simp [h0]; omega
  · rw [if_neg h0]
    exact natHexCore_length (n + 1) n k (Nat.lt_succ_self n) h

/-- `hex_encode` of a value that fits renders exactly `L` characters. -/
theorem hex_encode_length (n L : Nat) (h : n < 16 ^ L) (hL : 1 ≤ L) :
    (hex_encode n L).length = L := by
  unfold hex_encode
  have := natHexDigits_length n L h hL
  simp only [List.length_append, List.length_replicate]
  omega

/-- `hex_encode` only ever renders lowercase hex characters. -/
theorem hex_encode_mem (n L : Nat) : ∀ c ∈ hex_encode n L, c ∈ hexCharsList := by
  intro c hc
  unfold hex_encode at hc
  rcases List.mem_append.1 hc with h | h
  · have := List.eq_of_mem_replicate h
    subst this; decide
  · exact natHexDigits_mem n c h

/-- Every character of a computed file key is a lowercase hex digit. -/
theorem get_file_key_mem (content : Bytes) (hl sl : Nat) :
    ∀ c ∈ get_file_key content hl sl, c ∈ hexCharsList := by
  intro c hc
  unfold get_file_key get_file_hash get_file_size at hc
  rcases List.mem_append.1 hc with h | h
  · exact hex_encode_mem _ _ c h
  · exact hex_encode_mem _ _ c h

/-- File keys never contain a newline, so they survive the line-oriented
persistence format intact. -/
theorem newline_not_mem_get_file_key (content : Bytes) (hl sl : Nat) :
    '\n' ∉ get_file_key content hl sl := by
  intro h
  have := get_file_key_mem content hl sl _ h
  revert this
  decide

/-- Python's `split` never returns an empty list of pieces. -/
theorem splitNl_ne_nil : ∀ cs : List Char, splitNl cs ≠ [] := by
  intro cs
  induction cs with
  | nil => simp [splitNl]
  | cons c cs ih =>
    simp only [splitNl]
    by_cases h : c = '\n'
    · simp [h]
    · rw [if_neg h]
      rcases hs : splitNl cs with _ | ⟨r, rs⟩
      · simp
      · simp

/-- Unfolding `splitNl` at a newline. -/
theorem splitNl_cons_pos (cs : List Char) :
    splitNl ('\n' :: cs) = [] :: splitNl cs := by
  simp [splitNl]

/-- Unfolding `splitNl` at a non-newline character: it is prepended to the
first piece of the tail's split. -/
theorem splitNl_cons_neg (c : Char) (cs : List Char) (r : List Char)
    (rs : List (List Char)) (hc : ¬ c = '\n') (hs : splitNl cs = r :: rs) :
    splitNl (c :: cs) = (c :: r) :: rs := by
  simp only [splitNl, if_neg hc]
  rw [hs]

/-- Splitting a newline-terminated, newline-free line off the front. -/
theorem splitNl_flat_cons (k rest : List Char) (hk : '\n' ∉ k) :
    splitNl (k ++ '\n' :: rest) = k :: splitNl rest := by
  induction k with
  | nil => simp [splitNl]
  | cons c k ih =>
    have hc : ¬ c = '\n' := fun h => hk (h ▸ List.mem_cons_self c k)
    have hk' : '\n' ∉ k := fun h => hk (List.mem_cons_of_mem c h)
    rw [List.cons_append]
    exact splitNl_cons_neg c _ _ _ hc (ih hk')

/-- Everything before a newline only prepends pieces: the pieces of the
tail after the newline survive as a suffix. -/
theorem splitNl_shift (a b : List Char) :
    ∃ pre : List (List Char), pre ≠ [] ∧
      splitNl (a ++ '\n' :: b) = pre ++ splitNl b := by
  induction a with
  | nil => exact ⟨[[]], by simp, by simp [splitNl]⟩
  | cons c a ih =>
    rcases ih with ⟨pre, hne, heq⟩
    by_cases hc : c = '\n'
    · refine ⟨[] :: pre, by simp, ?_⟩
      subst hc
      rw [List.cons_append, splitNl_cons_pos, heq]
      simp
    · rcases pre with _ | ⟨p, pre'⟩
      · exact absurd rfl hne
      · refine ⟨(c :: p) :: pre', by simp, ?_⟩
        rw [List.cons_append,
            splitNl_cons_neg c _ p (pre' ++ splitNl b) hc (by rw [heq]; simp)]
        simp

/-- `write_file_keys` with a general accumulator. -/
theorem write_file_keys_foldl :
    ∀ (l : List (List Char)) (acc : List Char),
      l.foldl (fun a k => a ++ k ++ ['\n']) acc = acc ++ write_file_keys l := by
  intro l
  induction l with
  | nil => intro acc; simp [write_file_keys]
  | cons k l ih =>
    intro acc
    simp only [write_file_keys, List.foldl_cons] at ih ⊢
    rw [ih, ih (([] : List Char) ++ k ++ ['\n'])]
    simp

/-- The text written for `k :: l` is `k`, a newline, then the rest. -/
theorem write_file_keys_cons (k : List Char) (l : List (List Char)) :
    write_file_keys (k :: l) = k ++ '\n' :: write_file_keys l := by
  show List.foldl _ _ (k :: l) = _
  rw [List.foldl_cons, write_file_keys_foldl]
  simp

/-- Reading back a written key list splits it into exactly the keys plus
one final empty piece (the artifact of the terminal newline), provided
none of the keys contains a newline. -/
theorem splitNl_write_file_keys (l : List (List Char))
    (hl : ∀ k ∈ l, '\n' ∉ k) :
    splitNl (write_file_keys l) = l ++ [[]] := by
  induction l with
  | nil => simp [write_file_keys, splitNl]
  | cons k l ih =>
    rw [write_file_keys_cons, splitNl_flat_cons k _ (hl k (by simp)),
        ih (fun k' hk' => hl k' (by simp [hk']))]
    simp

/-- A newline-free key that was written is among the pieces read back,
whatever the other keys look like. -/
theorem mem_splitNl_write (l : List (List Char)) (k : List Char)
    (hk : '\n' ∉ k) (hmem : k ∈ l) :
    k ∈ splitNl (write_file_keys l) := by
  induction l with
  | nil => simp at hmem
  | cons k' l ih =>
    rw [write_file_keys_cons]
    rcases List.mem_cons.1 hmem with rfl | h
    · rw [splitNl_flat_cons _ _ hk]
      exact List.mem_cons_self _ _
    · rcases splitNl_shift k' (write_file_keys l) with ⟨pre, _, heq⟩
      rw [heq]
      exact List.mem_append_right _ (ih h)

/-- The empty piece is always among the pieces read back from a written
key list (terminal newline, or the file being empty). -/
theorem nil_mem_splitNl_write (l : List (List Char)) :
    [] ∈ splitNl (write_file_keys l) := by
  induction l with
  | nil => simp [write_file_keys, splitNl]
  | cons k l ih =>
    rw [write_file_keys_cons]
    rcases splitNl_shift k (write_file_keys l) with ⟨pre, _, heq⟩
    rw [heq]
    exact List.mem_append_right _ ih

/-- Save-then-load round trip at the set level: the loaded set is the
saved set plus the empty-string entry. -/
theorem read_write_file_keys (l : List (List Char))
    (hl : ∀ k ∈ l, '\n' ∉ k) :
    read_file_keys (write_file_keys l) = l.toFinset ∪ {[]} := by
  unfold read_file_keys
  rw [splitNl_write_file_keys l hl]
  simp

/-- The target-exists test of line 231 as a membership statement. -/
theorem targetExists_iff (al : List SFile) (t : List Char) :
    targetExists al t = true ↔ t ∈ al.map SFile.base := by
  simp only [targetExists, List.any_eq_true, beq_iff_eq, List.mem_map]

/-- One import step on a file with an ignored extension. -/
theorem import_one_ignored_ext (col : Collection) (al : List SFile) (f : SFile)
    (h : get_file_extension f.base ∈ IGNORED_EXT) :
    import_one col al f = ⟨al, .ignored, true⟩ := by
  simp [import_one, h]

/-- One import step on a file whose key is already classified. -/
theorem import_one_known (col : Collection) (al : List SFile) (f : SFile)
    (hext : get_file_extension f.base ∉ IGNORED_EXT)
    (h : col.is_blacklisted (get_file_key f.content) = true ∨
         col.is_whitelisted (get_file_key f.content) = true) :
    import_one col al f = ⟨al, .ignored, true⟩ := by
  rcases h with h | h <;> simp [import_one, hext, h]

/-- One import step on a genuinely new file whose target is already
staged: the silent skip. -/
theorem import_one_good_exists (col : Collection) (al : List SFile) (f : SFile)
    (hg : goodFile col f) (ht : targetExists al (targetName f) = true) :
    import_one col al f = ⟨al, .skippedSilent, true⟩ := by
  rcases hg with ⟨hext, hbl, hwl⟩
  simp [import_one, hext, hbl, hwl, targetName] at ht ⊢
  simp [ht]

/-- One import step on a genuinely new file with a fresh target: the
copy. -/
theorem import_one_good_new (col : Collection) (al : List SFile) (f : SFile)
    (hg : goodFile col f) (ht : targetExists al (targetName f) = false) :
    import_one col al f =
      ⟨al ++ [⟨targetName f, f.content⟩], .copied, true⟩ := by
  rcases hg with ⟨hext, hbl, hwl⟩
  simp [import_one, hext, hbl, hwl, targetName] at ht ⊢
  simp [ht]

/-- Case summary of one import step's effect on the airlock: it is either
untouched or extended by the single staged copy. -/
theorem import_one_airlock_cases (col : Collection) (al : List SFile) (f : SFile) :
    (import_one col al f).airlock = al ∨
    (goodFile col f ∧ targetExists al (targetName f) = false ∧
      (import_one col al f).airlock = al ++ [⟨targetName f, f.content⟩]) := by
  by_cases hext : get_file_extension f.base ∈ IGNORED_EXT
  · left; rw [import_one_ignored_ext col al f hext]
  by_cases hbl : col.is_blacklisted (get_file_key f.content) = true
  · left; rw [import_one_known col al f hext (Or.inl hbl)]
  by_cases hwl : col.is_whitelisted (get_file_key f.content) = true
  · left; rw [import_one_known col al f hext (Or.inr hwl)]
  have hg : goodFile col f :=
    ⟨hext, Bool.not_eq_true _ ▸ hbl, Bool.not_eq_true _ ▸ hwl⟩
  by_cases ht : targetExists al (targetName f) = true
  · left; rw [import_one_good_exists col al f hg ht]
  · right
    have ht' : targetExists al (targetName f) = false := Bool.not_eq_true _ ▸ ht
    exact ⟨hg, ht', by rw [import_one_good_new col al f hg ht']⟩

/-- Importing only appends to the airlock, and every appended entry is a
copy of a genuinely new source file staged under its target name. -/
theorem import_files_airlock (col : Collection) (fs : List SFile) :
    ∀ al, ∃ news, (import_files col al fs).1 = al ++ news ∧
      ∀ e ∈ news, ∃ f ∈ fs, goodFile col f ∧ e.content = f.content ∧
        e.base = targetName f := by
  induction fs with
  | nil => exact fun al => ⟨[], by simp [import_files], by simp⟩
  | cons f rest ih =>
    intro al
    rcases ih (import_one col al f).airlock with ⟨news, hn, hmem⟩
    have hgoal :
        (import_files col al (f :: rest)).1 =
          (import_files col (import_one col al f).airlock rest).1 := by
      simp [import_files]
    rcases import_one_airlock_cases col al f with h | ⟨hg, _, h⟩
    · refine ⟨news, by rw [hgoal, hn, h], fun e he => ?_⟩
      rcases hmem e he with ⟨g, hgr, hp⟩
      exact ⟨g, List.mem_cons_of_mem f hgr, hp⟩
    · refine ⟨⟨targetName f, f.content⟩ :: news, ?_, ?_⟩
      · rw [hgoal, hn, h]; simp
      · intro e he
        rcases List.mem_cons.1 he with rfl | he'
        · exact ⟨f, List.mem_cons_self f rest, hg, rfl, rfl⟩
        · rcases hmem e he' with ⟨g, hgr, hp⟩
          exact ⟨g, List.mem_cons_of_mem f hgr, hp⟩

/-- Names already staged stay staged across an import. -/
theorem import_files_names_mono (col : Collection) (fs : List SFile)
    (al : List SFile) (b : List Char) (h : b ∈ al.map SFile.base) :
    b ∈ (import_files col al fs).1.map SFile.base := by
  rcases import_files_airlock col fs al with ⟨news, hn, _⟩
  rw [hn]
  simp only [List.map_append, List.mem_append]
  exact Or.inl h

/-- After an import, the target name of every genuinely new source file is
staged. -/
theorem import_files_target_mem (col : Collection) (fs : List SFile) :
    ∀ al f, f ∈ fs → goodFile col f →
      targetName f ∈ (import_files col al fs).1.map SFile.base := by
  induction fs with
  | nil => intro al f h; simp at h
  | cons f0 rest ih =>
    intro al f hf hg
    have hgoal :
        (import_files col al (f0 :: rest)).1 =
          (import_files col (import_one col al f0).airlock rest).1 := by
      simp [import_files]
    rcases List.mem_cons.1 hf with rfl | hf'
    · rw [hgoal]
      by_cases ht : targetExists al (targetName f) = true
      · apply import_files_names_mono
        rcases import_one_airlock_cases col al f with h | ⟨_, _, h⟩
        · rw [h]; exact (targetExists_iff al _).1 ht
        · rw [h]
          simp only [List.map_append, List.mem_append]
          exact Or.inl ((targetExists_iff al _).1 ht)
      · have ht' : targetExists al (targetName f) = false := Bool.not_eq_true _ ▸ ht
        apply import_files_names_mono
        rw [import_one_good_new col al f hg ht']
        simp
    · rw [hgoal]
      exact ih _ f hf' hg

/-- Importing never stages two files under the same name. -/
theorem import_files_names_nodup (col : Collection) (fs : List SFile) :
    ∀ al, (al.map SFile.base).Nodup →
      ((import_files col al fs).1.map SFile.base).Nodup := by
  induction fs with
  | nil => intro al h; simpa [import_files] using h
  | cons f rest ih =>
    intro al h
    have hgoal :
        (import_files col al (f :: rest)).1 =
          (import_files col (import_one col al f).airlock rest).1 := by
      simp [import_files]
    rw [hgoal]
    apply ih
    rcases import_one_airlock_cases col al f with heq | ⟨_, ht, heq⟩
    · rw [heq]; exact h
    · rw [heq]
      have : targetName f ∉ al.map SFile.base := by
        intro hmem
        rw [← targetExists_iff al (targetName f)] at hmem
        rw [ht] at hmem
        exact Bool.false_ne_true hmem
      simp [List.nodup_append, h, this]

/-- When every genuinely new file's target is already staged, an import
leaves the airlock unchanged and produces the silent-or-ignored report. -/
theorem import_files_stable (col : Collection) (fs : List SFile) :
    ∀ al, (∀ f ∈ fs, goodFile col f → targetName f ∈ al.map SFile.base) →
      import_files col al fs = (al, fs.map (secondRunReport col)) := by
  induction fs with
  | nil => intro al _; simp [import_files]
  | cons f rest ih =>
    intro al h
    have hstep : import_one col al f = ⟨al, secondRunReport col f, true⟩ := by
      by_cases hext : get_file_extension f.base ∈ IGNORED_EXT
      · rw [import_one_ignored_ext col al f hext]
        simp [secondRunReport, hext]
      by_cases hbl : col.is_blacklisted (get_file_key f.content) = true
      · rw [import_one_known col al f hext (Or.inl hbl)]
        simp [secondRunReport, hext, hbl]
      by_cases hwl : col.is_whitelisted (get_file_key f.content) = true
      · rw [import_one_known col al f hext (Or.inr hwl)]
        simp [secondRunReport, hext, hwl]
      have hg : goodFile col f :=
        ⟨hext, Bool.not_eq_true _ ▸ hbl, Bool.not_eq_true _ ▸ hwl⟩
      have ht : targetExists al (targetName f) = true :=
        (targetExists_iff al _).2 (h f (List.mem_cons_self f rest) hg)
      rw [import_one_good_exists col al f hg ht]
      simp [secondRunReport, hext,
            Bool.not_eq_true _ ▸ hbl, Bool.not_eq_true _ ▸ hwl]
    have htail := ih al (fun g hgr hgood => h g (List.mem_cons_of_mem f hgr) hgood)
    simp [import_files, hstep, htail]

/-- C1: for every two files whose byte contents are identical (regardless
of their names or paths), computing the content key yields identical key
strings. -/
theorem claim_c1_key_depends_only_on_content (f1 f2 : SFile)
    (h : f1.content = f2.content) :
    get_file_key f1.content = get_file_key f2.content := by
  rw [h]

/-- C1 witness: two files with distinct names but identical bytes. -/
theorem claim_c1_witness :
    (⟨['a', '.', 'j', 'p', 'g'], [1, 2, 3]⟩ : SFile).content =
        (⟨['b', '.', 'p', 'n', 'g'], [1, 2, 3]⟩ : SFile).content ∧
    get_file_key (⟨['a', '.', 'j', 'p', 'g'], [1, 2, 3]⟩ : SFile).content =
      get_file_key (⟨['b', '.', 'p', 'n', 'g'], [1, 2, 3]⟩ : SFile).content :=
  ⟨rfl, claim_c1_key_depends_only_on_content
    ⟨['a', '.', 'j', 'p', 'g'], [1, 2, 3]⟩
    ⟨['b', '.', 'p', 'n', 'g'], [1, 2, 3]⟩ rfl⟩

/-- C3: saving a set of well-formed (non-empty, newline-free) keys and
loading it back returns the same set up to the empty-string entry: the
loaded set is exactly the saved set plus the empty string, and membership
of every non-empty key is unchanged. -/
theorem claim_c3_save_load_round_trip (l : List (List Char))
    (hwf : ∀ k ∈ l, k ≠ [] ∧ '\n' ∉ k) :
    read_file_keys (write_file_keys l) = l.toFinset ∪ {[]} ∧
    ∀ k, k ≠ [] →
      (k ∈ read_file_keys (write_file_keys l) ↔ k ∈ l.toFinset) := by
  have h1 := read_write_file_keys l (fun k hk => (hwf k hk).2)
  refine ⟨h1, fun k hk => ?_⟩
  rw [h1]
  simp [Finset.mem_union, hk]

/-- C3 witness: a concrete two-key set round-trips. -/
theorem claim_c3_witness :
    (∀ k ∈ [['a'], ['b', 'c']], k ≠ ([] : List Char) ∧ '\n' ∉ k) ∧
    (read_file_keys (write_file_keys [['a'], ['b', 'c']]) =
        [['a'], ['b', 'c']].toFinset ∪ {[]} ∧
      ∀ k, k ≠ [] →
        (k ∈ read_file_keys (write_file_keys [['a'], ['b', 'c']]) ↔
          k ∈ [['a'], ['b', 'c']].toFinset)) :=
  ⟨by decide, claim_c3_save_load_round_trip [['a'], ['b', 'c']] (by decide)⟩

/-- C7 counterexample: a readable file of `2 ^ 32` bytes (size > 0) has a
key of 41 characters, not `hashWidth + sizeWidth = 40` — the size field is
not reduced modulo `16 ^ sizeWidth`, so it overflows its fixed width. -/
theorem claim_c7_counterexample :
    0 < (List.replicate (2 ^ 32) 0 : Bytes).length ∧
    (get_file_key (List.replicate (2 ^ 32) 0 : Bytes)).length ≠
      HASH_LENGTH + SIZE_LENGTH := by
  have hsize : (List.replicate (2 ^ 32) 0 : Bytes).length = 2 ^ 32 :=
    List.length_replicate _ _
  constructor
  · rw [hsize]; norm_num
  · have h1 : (get_file_hash (List.replicate (2 ^ 32) 0 : Bytes) HASH_LENGTH).length
        = 32 := by
      apply hex_encode_length
      · have hpow : (2 : Nat) ^ (4 * HASH_LENGTH) = 16 ^ HASH_LENGTH := by
          norm_num [HASH_LENGTH]
        rw [← hpow]
        exact Nat.mod_lt _ (by positivity)
      · norm_num [HASH_LENGTH]
    have h2 : (get_file_size (List.replicate (2 ^ 32) 0 : Bytes) SIZE_LENGTH).length
        = 9 := by
      unfold get_file_size
      rw [hsize]
      decide
    show (get_file_hash _ HASH_LENGTH ++ get_file_size _ SIZE_LENGTH).length ≠ _
    rw [List.length_append, h1, h2]
    decide

/-- C7 amended: for every file with `0 < size < 16 ^ sizeWidth` the key
has length exactly `hashWidth + sizeWidth = 40`, consists only of
lowercase hexadecimal characters, and is the digest-mod-`2^128` hex field
followed by the size hex field.  (The original claim, quantified over all
sizes `> 0`, fails for sizes of `2 ^ 32` bytes and up, whose size field
overflows its fixed width.) -/
theorem claim_c7_key_shape (content : Bytes)
    (hpos : 0 < content.length)
    (hsize : content.length < 16 ^ SIZE_LENGTH) :
    (get_file_key content).length = HASH_LENGTH + SIZE_LENGTH ∧
    (∀ c ∈ get_file_key content, c ∈ hexCharsList) ∧
    get_file_key content =
      hex_encode (sha256 content % 2 ^ (4 * HASH_LENGTH)) HASH_LENGTH ++
        hex_encode content.length SIZE_LENGTH := by
  refine ⟨?_, get_file_key_mem content _ _, rfl⟩
  show (get_file_hash content HASH_LENGTH ++
    get_file_size content SIZE_LENGTH).length = _
  have h1 : (get_file_hash content HASH_LENGTH).length = HASH_LENGTH := by
    apply hex_encode_length
    · have hpow : (2 : Nat) ^ (4 * HASH_LENGTH) = 16 ^ HASH_LENGTH := by
        norm_num [HASH_LENGTH]
      rw [← hpow]
      exact Nat.mod_lt _ (by positivity)
    · norm_num [HASH_LENGTH]
  have h2 : (get_file_size content SIZE_LENGTH).length = SIZE_LENGTH :=
    hex_encode_length _ _ hsize (by norm_num [SIZE_LENGTH])
  rw [List.length_append, h1, h2]

/-- C7 witness: a one-byte file satisfies the amended bounds, and its key
has the stated shape. -/
theorem claim_c7_witness :
    0 < ([7] : Bytes).length ∧ ([7] : Bytes).length < 16 ^ SIZE_LENGTH ∧
    ((get_file_key ([7] : Bytes)).length = HASH_LENGTH + SIZE_LENGTH ∧
      (∀ c ∈ get_file_key ([7] : Bytes), c ∈ hexCharsList) ∧
      get_file_key ([7] : Bytes) =
        hex_encode (sha256 [7] % 2 ^ (4 * HASH_LENGTH)) HASH_LENGTH ++
          hex_encode ([7] : Bytes).length SIZE_LENGTH) :=
  ⟨by decide, by decide, claim_c7_key_shape [7] (by decide) (by decide)⟩

/-- C10: every decision-list text the program itself produces — the empty
bootstrap file or any output of `write_file_keys` — loads to a set that
contains the empty string, so after opening a collection both in-memory
sets contain the empty key and the empty key always tests as already
known; no normalization discarding empty entries is performed. -/
theorem claim_c10_empty_key_always_known (lb lw : List (List Char)) :
    [] ∈ read_file_keys [] ∧
    [] ∈ (openCollection (write_file_keys lb) (write_file_keys lw)).blacklist ∧
    [] ∈ (openCollection (write_file_keys lb) (write_file_keys lw)).whitelist ∧
    (openCollection (write_file_keys lb)
      (write_file_keys lw)).is_blacklisted [] = true ∧
    (openCollection (write_file_keys lb)
      (write_file_keys lw)).is_whitelisted [] = true := by
  have hb : [] ∈ read_file_keys (write_file_keys lb) := by
    simp only [read_file_keys, List.mem_toFinset]
    exact nil_mem_splitNl_write lb
  have hw : [] ∈ read_file_keys (write_file_keys lw) := by
    simp only [read_file_keys, List.mem_toFinset]
    exact nil_mem_splitNl_write lw
  exact ⟨by simp [read_file_keys, splitNl], hb, hw,
    decide_eq_true hb, decide_eq_true hw⟩

/-- C10 witness: concrete file texts (a one-key blacklist, an empty
whitelist). -/
theorem claim_c10_witness :
    [] ∈ read_file_keys [] ∧
    [] ∈ (openCollection (write_file_keys [['a']])
      (write_file_keys [])).blacklist ∧
    [] ∈ (openCollection (write_file_keys [['a']])
      (write_file_keys [])).whitelist ∧
    (openCollection (write_file_keys [['a']])
      (write_file_keys [])).is_blacklisted [] = true ∧
    (openCollection (write_file_keys [['a']])
      (write_file_keys [])).is_whitelisted [] = true :=
  claim_c10_empty_key_always_known [['a']] []

/-- C8: closing the collection persists both decision sets to their files
(loading either file back yields the corresponding set, plus the
empty-string artifact), and the handler produces the same two file texts
on every exit path — normal completion, user-initiated quit, and
exceptional exit alike. -/
theorem claim_c8_exit_persists_both (col : Collection) (p : ExitPath)
    (lb lw : List (List Char))
    (hlb : lb.toFinset = col.blacklist) (hlw : lw.toFinset = col.whitelist)
    (hwfb : ∀ k ∈ lb, '\n' ∉ k) (hwfw : ∀ k ∈ lw, '\n' ∉ k) :
    read_file_keys (exitCollection p lb lw).1 = col.blacklist ∪ {[]} ∧
    read_file_keys (exitCollection p lb lw).2 = col.whitelist ∪ {[]} ∧
    ∀ p' : ExitPath, exitCollection p' lb lw = exitCollection p lb lw := by
  refine ⟨?_, ?_, fun p' => rfl⟩
  · show read_file_keys (write_file_keys lb) = _
    rw [read_write_file_keys lb hwfb, hlb]
  · show read_file_keys (write_file_keys lw) = _
    rw [read_write_file_keys lw hwfw, hlw]

/-- C8 witness: a concrete collection flushed on the quit path. -/
theorem claim_c8_witness :
    ([['a']] : List (List Char)).toFinset =
        (⟨{['a']}, ∅⟩ : Collection).blacklist ∧
    ([] : List (List Char)).toFinset = (⟨{['a']}, ∅⟩ : Collection).whitelist ∧
    (∀ k ∈ ([['a']] : List (List Char)), '\n' ∉ k) ∧
    (read_file_keys (exitCollection .userQuit [['a']] []).1 =
        (⟨{['a']}, ∅⟩ : Collection).blacklist ∪ {[]} ∧
      read_file_keys (exitCollection .userQuit [['a']] []).2 =
        (⟨{['a']}, ∅⟩ : Collection).whitelist ∪ {[]} ∧
      ∀ p' : ExitPath,
        exitCollection p' [['a']] [] = exitCollection .userQuit [['a']] []) :=
  ⟨by decide, by decide, by decide,
    claim_c8_exit_persists_both ⟨{['a']}, ∅⟩ .userQuit [['a']] []
      (by decide) (by decide) (by decide) (by decide)⟩

/-- C4: after blacklisting a staged file and closing the collection,
reopening it finds the key in the loaded rejected set (`is_blacklisted`
is true), and no file with the staged file's name remains in the inbox. -/
theorem claim_c4_reject_persists (st : ReviewState) (f : SFile)
    (lb lw : List (List Char)) (hst : f ∈ st.airlock)
    (hlb : lb.toFinset = (blacklist_handler st f).col.blacklist) :
    (openCollection (write_file_keys lb) (write_file_keys lw)).is_blacklisted
        (get_file_key f.content) = true ∧
    get_file_key f.content ∈
      (openCollection (write_file_keys lb) (write_file_keys lw)).blacklist ∧
    ∀ g ∈ (blacklist_handler st f).airlock, g.base ≠ f.base := by
  have hkey : get_file_key f.content ∈ lb := by
    have hmem : get_file_key f.content ∈ (blacklist_handler st f).col.blacklist := by
      simp [blacklist_handler, Collection.blacklist_file]
    rw [← hlb] at hmem
    exact List.mem_toFinset.1 hmem
  have hmem : get_file_key f.content ∈ read_file_keys (write_file_keys lb) := by
    simp only [read_file_keys, List.mem_toFinset]
    exact mem_splitNl_write lb _ (newline_not_mem_get_file_key f.content _ _) hkey
  refine ⟨decide_eq_true hmem, hmem, ?_⟩
  intro g hg
  simp only [blacklist_handler, removeFile, List.mem_filter, bne_iff_ne,
    ne_eq] at hg
  exact hg.2

/-- C4 witness: a concrete one-file inbox, rejected and flushed. -/
theorem claim_c4_witness :
    ((⟨['k', '.', 'j', 'p', 'g'], [0]⟩ : SFile) ∈
        (⟨⟨∅, ∅⟩, [⟨['k', '.', 'j', 'p', 'g'], [0]⟩], []⟩ :
          ReviewState).airlock) ∧
    ([get_file_key [0]].toFinset =
      (blacklist_handler ⟨⟨∅, ∅⟩, [⟨['k', '.', 'j', 'p', 'g'], [0]⟩], []⟩
        ⟨['k', '.', 'j', 'p', 'g'], [0]⟩).col.blacklist) ∧
    ((openCollection (write_file_keys [get_file_key [0]])
        (write_file_keys [])).is_blacklisted (get_file_key [0]) = true ∧
      get_file_key [0] ∈
        (openCollection (write_file_keys [get_file_key [0]])
          (write_file_keys [])).blacklist ∧
      ∀ g ∈ (blacklist_handler ⟨⟨∅, ∅⟩, [⟨['k', '.', 'j', 'p', 'g'], [0]⟩], []⟩
          ⟨['k', '.', 'j', 'p', 'g'], [0]⟩).airlock,
        g.base ≠ (⟨['k', '.', 'j', 'p', 'g'], [0]⟩ : SFile).base) :=
  ⟨by simp, by simp [blacklist_handler, Collection.blacklist_file],
    claim_c4_reject_persists ⟨⟨∅, ∅⟩, [⟨['k', '.', 'j', 'p', 'g'], [0]⟩], []⟩
      ⟨['k', '.', 'j', 'p', 'g'], [0]⟩ [get_file_key [0]] [] (by simp)
      (by simp [blacklist_handler, Collection.blacklist_file])⟩

/-- C5: accepting a staged file appends it to the gallery under its own
basename (under the staged-naming convention `key ++ ext` with a nonempty
extension, this is not the bare content key), removes it from the inbox,
and records its key in the whitelist. -/
theorem claim_c5_accept_moves_to_gallery (st : ReviewState) (f : SFile)
    (ext : List Char) (hst : f ∈ st.airlock)
    (hname : f.base = get_file_key f.content ++ ext) (hext : ext ≠ []) :
    (⟨f.base, f.content⟩ : SFile) ∈ (whitelist_handler st f).gallery ∧
    (∀ g ∈ (whitelist_handler st f).airlock, g.base ≠ f.base) ∧
    get_file_key f.content ∈ (whitelist_handler st f).col.whitelist ∧
    f.base ≠ get_file_key f.content := by
  refine ⟨?_, ?_, ?_, ?_⟩
  · simp [whitelist_handler]
  · intro g hg
    simp only [whitelist_handler, removeFile, List.mem_filter, bne_iff_ne,
      ne_eq] at hg
    exact hg.2
  · simp [whitelist_handler, Collection.whitelist_file]
  · rw [hname]
    intro h
    have hlen := congrArg List.length h
    rw [List.length_append] at hlen
    have hz : ext.length = 0 := by omega
    exact hext (List.length_eq_zero.1 hz)

/-- C5 witness: a staged file named by its key plus `.jpg` is accepted. -/
theorem claim_c5_witness :
    ((⟨get_file_key [0] ++ ['.', 'j', 'p', 'g'], [0]⟩ : SFile) ∈
        (⟨⟨∅, ∅⟩, [⟨get_file_key [0] ++ ['.', 'j', 'p', 'g'], [0]⟩], []⟩ :
          ReviewState).airlock) ∧
    (⟨get_file_key [0] ++ ['.', 'j', 'p', 'g'], [0]⟩ : SFile).base =
      get_file_key (⟨get_file_key [0] ++ ['.', 'j', 'p', 'g'], [0]⟩ :
        SFile).content ++ ['.', 'j', 'p', 'g'] ∧
    (['.', 'j', 'p', 'g'] : List Char) ≠ [] ∧
    ((⟨(⟨get_file_key [0] ++ ['.', 'j', 'p', 'g'], [0]⟩ : SFile).base,
        (⟨get_file_key [0] ++ ['.', 'j', 'p', 'g'], [0]⟩ : SFile).content⟩ :
          SFile) ∈
      (whitelist_handler
        ⟨⟨∅, ∅⟩, [⟨get_file_key [0] ++ ['.', 'j', 'p', 'g'], [0]⟩], []⟩
        ⟨get_file_key [0] ++ ['.', 'j', 'p', 'g'], [0]⟩).gallery ∧
    (∀ g ∈ (whitelist_handler
        ⟨⟨∅, ∅⟩, [⟨get_file_key [0] ++ ['.', 'j', 'p', 'g'], [0]⟩], []⟩
        ⟨get_file_key [0] ++ ['.', 'j', 'p', 'g'], [0]⟩).airlock,
      g.base ≠ (⟨get_file_key [0] ++ ['.', 'j', 'p', 'g'], [0]⟩ : SFile).base) ∧
    get_file_key (⟨get_file_key [0] ++ ['.', 'j', 'p', 'g'], [0]⟩ :
        SFile).content ∈
      (whitelist_handler
        ⟨⟨∅, ∅⟩, [⟨get_file_key [0] ++ ['.', 'j', 'p', 'g'], [0]⟩], []⟩
        ⟨get_file_key [0] ++ ['.', 'j', 'p', 'g'], [0]⟩).col.whitelist ∧
    (⟨get_file_key [0] ++ ['.', 'j', 'p', 'g'], [0]⟩ : SFile).base ≠
      get_file_key (⟨get_file_key [0] ++ ['.', 'j', 'p', 'g'], [0]⟩ :
        SFile).content) :=
  ⟨by simp, rfl, by decide,
    claim_c5_accept_moves_to_gallery
      ⟨⟨∅, ∅⟩, [⟨get_file_key [0] ++ ['.', 'j', 'p', 'g'], [0]⟩], []⟩
      ⟨get_file_key [0] ++ ['.', 'j', 'p', 'g'], [0]⟩ ['.', 'j', 'p', 'g']
      (by simp) rfl (by decide)⟩

/-- C6 counterexample: the import loop computes the content key of a
`.json` file too — line 222 runs before the extension check of line 224 —
so "never computes its hash" fails on a `.json` source file. -/
theorem claim_c6_counterexample :
    get_file_extension ['a', '.', 'j', 's', 'o', 'n'] ∈ IGNORED_EXT ∧
    (import_one ⟨∅, ∅⟩ []
      ⟨['a', '.', 'j', 's', 'o', 'n'], [0]⟩).hashed = true := by
  refine ⟨by decide, ?_⟩
  rw [import_one_ignored_ext _ _ _ (by decide)]

/-- C6 amended: a source file with an extension in the ignored set is
always reported "ignored" and never copied (the airlock is unchanged),
regardless of the collection's prior state — but, contrary to the original
claim, its content key is computed (the file is hashed) before the
extension check. -/
theorem claim_c6_ignored_ext_never_copied (col : Collection) (al : List SFile)
    (f : SFile) (h : get_file_extension f.base ∈ IGNORED_EXT) :
    (import_one col al f).action = .ignored ∧
    (import_one col al f).airlock = al ∧
    (import_one col al f).action ≠ .copied ∧
    (import_one col al f).hashed = true := by
  rw [import_one_ignored_ext col al f h]
  exact ⟨rfl, rfl, fun hc => ImportAction.noConfusion hc, rfl⟩

/-- C6 witness: a `.json` file against a nonempty collection state. -/
theorem claim_c6_witness :
    get_file_extension ['b', '.', 'j', 's', 'o', 'n'] ∈ IGNORED_EXT ∧
    ((import_one ⟨{['a']}, ∅⟩ [⟨['x'], [9]⟩]
        ⟨['b', '.', 'j', 's', 'o', 'n'], [1]⟩).action = .ignored ∧
      (import_one ⟨{['a']}, ∅⟩ [⟨['x'], [9]⟩]
        ⟨['b', '.', 'j', 's', 'o', 'n'], [1]⟩).airlock = [⟨['x'], [9]⟩] ∧
      (import_one ⟨{['a']}, ∅⟩ [⟨['x'], [9]⟩]
        ⟨['b', '.', 'j', 's', 'o', 'n'], [1]⟩).action ≠ .copied ∧
      (import_one ⟨{['a']}, ∅⟩ [⟨['x'], [9]⟩]
        ⟨['b', '.', 'j', 's', 'o', 'n'], [1]⟩).hashed = true) :=
  ⟨by decide,
    claim_c6_ignored_ext_never_copied ⟨{['a']}, ∅⟩ [⟨['x'], [9]⟩]
      ⟨['b', '.', 'j', 's', 'o', 'n'], [1]⟩ (by decide)⟩

/-- C9: importing writes only into the airlock: the source region is
unchanged (files are copied, not moved), the previously staged entries are
kept untouched as a prefix, and every new staged entry carries the bytes
of a genuinely new source file under its target name. -/
theorem claim_c9_import_frame (col : Collection) (w : World) :
    (import_files_w col w).1.source = w.source ∧
    ∃ news, (import_files_w col w).1.airlock = w.airlock ++ news ∧
      ∀ e ∈ news, ∃ f ∈ w.source, goodFile col f ∧ e.content = f.content ∧
        e.base = targetName f := by
  refine ⟨rfl, ?_⟩
  rcases import_files_airlock col w.source w.airlock with ⟨news, hn, hmem⟩
  exact ⟨news, hn, hmem⟩

/-- C9 witness: a concrete one-file source and empty airlock. -/
theorem claim_c9_witness :
    (import_files_w ⟨∅, ∅⟩
        ⟨[⟨['a', '.', 'j', 'p', 'g'], [0]⟩], []⟩).1.source =
      (⟨[⟨['a', '.', 'j', 'p', 'g'], [0]⟩], []⟩ : World).source ∧
    ∃ news,
      (import_files_w ⟨∅, ∅⟩
          ⟨[⟨['a', '.', 'j', 'p', 'g'], [0]⟩], []⟩).1.airlock =
        (⟨[⟨['a', '.', 'j', 'p', 'g'], [0]⟩], []⟩ : World).airlock ++ news ∧
      ∀ e ∈ news, ∃ f ∈ (⟨[⟨['a', '.', 'j', 'p', 'g'], [0]⟩], []⟩ :
          World).source,
        goodFile ⟨∅, ∅⟩ f ∧ e.content = f.content ∧ e.base = targetName f :=
  claim_c9_import_frame ⟨∅, ∅⟩ ⟨[⟨['a', '.', 'j', 'p', 'g'], [0]⟩], []⟩

/-- C2 counterexample: a fresh collection and a source holding `a.jpg` and
`b.png` with identical bytes refute both parts of the claim.  First, after
importing twice the airlock holds TWO staged files for the single
previously-unknown unique content (the target name is key + extension, so
the two extensions give two distinct targets) — not "exactly one staged
file per previously-unknown unique content".  Second, the second run does
not report the files "ignored": the targets already staged by the first
run make the loop skip both silently (the branch at line 231 prints
nothing). -/
theorem claim_c2_counterexample :
    (⟨['a', '.', 'j', 'p', 'g'], [0]⟩ : SFile).content =
        (⟨['b', '.', 'p', 'n', 'g'], [0]⟩ : SFile).content ∧
    (import_files ⟨∅, ∅⟩ []
        [⟨['a', '.', 'j', 'p', 'g'], [0]⟩,
         ⟨['b', '.', 'p', 'n', 'g'], [0]⟩]).1.map SFile.content =
      [[0], [0]] ∧
    (import_files ⟨∅, ∅⟩
        (import_files ⟨∅, ∅⟩ []
          [⟨['a', '.', 'j', 'p', 'g'], [0]⟩,
           ⟨['b', '.', 'p', 'n', 'g'], [0]⟩]).1
        [⟨['a', '.', 'j', 'p', 'g'], [0]⟩,
         ⟨['b', '.', 'p', 'n', 'g'], [0]⟩]).2 =
      [ImportAction.skippedSilent, ImportAction.skippedSilent] := by
  have hg1 : goodFile ⟨∅, ∅⟩ ⟨['a', '.', 'j', 'p', 'g'], [0]⟩ :=
    ⟨by decide, by simp [Collection.is_blacklisted],
      by simp [Collection.is_whitelisted]⟩
  have hg2 : goodFile ⟨∅, ∅⟩ ⟨['b', '.', 'p', 'n', 'g'], [0]⟩ :=
    ⟨by decide, by simp [Collection.is_blacklisted],
      by simp [Collection.is_whitelisted]⟩
  have hne : targetName ⟨['a', '.', 'j', 'p', 'g'], [0]⟩ ≠
      targetName ⟨['b', '.', 'p', 'n', 'g'], [0]⟩ := by
    simp only [targetName]
    intro h
    rw [List.append_right_inj] at h
    exact absurd h (by decide)
  have hstep1 := import_one_good_new ⟨∅, ∅⟩ []
    ⟨['a', '.', 'j', 'p', 'g'], [0]⟩ hg1 rfl
  have ht2 : targetExists
      [⟨targetName ⟨['a', '.', 'j', 'p', 'g'], [0]⟩, [0]⟩]
      (targetName ⟨['b', '.', 'p', 'n', 'g'], [0]⟩) = false := by
    simp only [targetExists, List.any_cons, List.any_nil, Bool.or_false]
    exact beq_eq_false_iff_ne.mpr hne
  have hstep2 := import_one_good_new ⟨∅, ∅⟩
    [⟨targetName ⟨['a', '.', 'j', 'p', 'g'], [0]⟩, [0]⟩]
    ⟨['b', '.', 'p', 'n', 'g'], [0]⟩ hg2 ht2
  have hrun1 : import_files ⟨∅, ∅⟩ []
      [⟨['a', '.', 'j', 'p', 'g'], [0]⟩, ⟨['b', '.', 'p', 'n', 'g'], [0]⟩] =
      ([⟨targetName ⟨['a', '.', 'j', 'p', 'g'], [0]⟩, [0]⟩,
        ⟨targetName ⟨['b', '.', 'p', 'n', 'g'], [0]⟩, [0]⟩],
       [ImportAction.copied, ImportAction.copied]) := by
    simp [import_files, hstep1, hstep2]
  have ht1' : targetExists
      [⟨targetName ⟨['a', '.', 'j', 'p', 'g'], [0]⟩, [0]⟩,
       ⟨targetName ⟨['b', '.', 'p', 'n', 'g'], [0]⟩, [0]⟩]
      (targetName ⟨['a', '.', 'j', 'p', 'g'], [0]⟩) = true := by
    rw [targetExists_iff]; simp
  have ht2' : targetExists
      [⟨targetName ⟨['a', '.', 'j', 'p', 'g'], [0]⟩, [0]⟩,
       ⟨targetName ⟨['b', '.', 'p', 'n', 'g'], [0]⟩, [0]⟩]
      (targetName ⟨['b', '.', 'p', 'n', 'g'], [0]⟩) = true := by
    rw [targetExists_iff]; simp
  have hstep3 := import_one_good_exists ⟨∅, ∅⟩
    [⟨targetName ⟨['a', '.', 'j', 'p', 'g'], [0]⟩, [0]⟩,
     ⟨targetName ⟨['b', '.', 'p', 'n', 'g'], [0]⟩, [0]⟩]
    ⟨['a', '.', 'j', 'p', 'g'], [0]⟩ hg1 ht1'
  have hstep4 := import_one_good_exists ⟨∅, ∅⟩
    [⟨targetName ⟨['a', '.', 'j', 'p', 'g'], [0]⟩, [0]⟩,
     ⟨targetName ⟨['b', '.', 'p', 'n', 'g'], [0]⟩, [0]⟩]
    ⟨['b', '.', 'p', 'n', 'g'], [0]⟩ hg2 ht2'
  refine ⟨rfl, ?_, ?_⟩
  · rw [hrun1]
    simp
  · rw [hrun1]
    simp [import_files, hstep3, hstep4]

/-- C2 amended: importing the same source twice leaves the airlock of the
second run identical to that of the first, which holds exactly one staged
file per target name (key plus extension) of each previously-unknown
file; on the second run, files with ignored extensions or already-known
keys are reported "ignored", while files whose target path already exists
in the airlock are skipped silently, with no report.  (The original
claim's "every file is reported as ignored" fails for the silent skips.) -/
theorem claim_c2_import_idempotent (col : Collection) (fs : List SFile) :
    (import_files col (import_files col [] fs).1 fs).1 =
        (import_files col [] fs).1 ∧
    ((import_files col [] fs).1.map SFile.base).Nodup ∧
    (∀ f ∈ fs, goodFile col f →
      targetName f ∈ (import_files col [] fs).1.map SFile.base) ∧
    (import_files col (import_files col [] fs).1 fs).2 =
      fs.map (secondRunReport col) := by
  have htarget : ∀ f ∈ fs, goodFile col f →
      targetName f ∈ (import_files col [] fs).1.map SFile.base :=
    fun f hf hg => import_files_target_mem col fs [] f hf hg
  have hstable := import_files_stable col fs (import_files col [] fs).1 htarget
  refine ⟨?_, import_files_names_nodup col fs [] (by simp), htarget, ?_⟩
  · rw [hstable]
  · rw [hstable]

/-- C2 witness: the two-run import at a concrete fresh collection and a
one-file source. -/
theorem claim_c2_witness :
    (import_files ⟨∅, ∅⟩
        (import_files ⟨∅, ∅⟩ [] [⟨['b', '.', 'p', 'n', 'g'], [1]⟩]).1
        [⟨['b', '.', 'p', 'n', 'g'], [1]⟩]).1 =
      (import_files ⟨∅, ∅⟩ [] [⟨['b', '.', 'p', 'n', 'g'], [1]⟩]).1 ∧
    ((import_files ⟨∅, ∅⟩ []
        [⟨['b', '.', 'p', 'n', 'g'], [1]⟩]).1.map SFile.base).Nodup ∧
    (∀ f ∈ [(⟨['b', '.', 'p', 'n', 'g'], [1]⟩ : SFile)], goodFile ⟨∅, ∅⟩ f →
      targetName f ∈ (import_files ⟨∅, ∅⟩ []
        [⟨['b', '.', 'p', 'n', 'g'], [1]⟩]).1.map SFile.base) ∧
    (import_files ⟨∅, ∅⟩
        (import_files ⟨∅, ∅⟩ [] [⟨['b', '.', 'p', 'n', 'g'], [1]⟩]).1
        [⟨['b', '.', 'p', 'n', 'g'], [1]⟩]).2 =
      [(⟨['b', '.', 'p', 'n', 'g'], [1]⟩ : SFile)].map
        (secondRunReport ⟨∅, ∅⟩) :=
  claim_c2_import_idempotent ⟨∅, ∅⟩ [⟨['b', '.', 'p', 'n', 'g'], [1]⟩]
